import Mathlib

/-!
# Verification orchestration core: shallow embedding and proofs

A shallow embedding of the score-aggregation, trust-network, community
validation, reputation-decay and verification-session logic of the
`voluntier` repository (files `app/activities/verification.py`,
`app/workflows/verification.py`, `app/workflows/verification_subworkflows.py`,
`app/workflows/reputation.py`), together with theorems settling the spec's
claims about them.

Python `float` weights and scores are modelled as `ℚ`; Python dicts with
optional keys are modelled as structures with `Option` fields, and the
`dict.get(key, default)` idiom becomes `Option.getD`.
-/

namespace Voluntier

/-- A verification-method record as stored in the user's
`verification_methods` JSON list.  The keys `method` and `weight` may be
absent (the code reads them with `get("method", "unknown")` and
`get("weight", 0)`); `evidence` is an opaque key-value map and
`completed_at` an ISO timestamp, both carried along unread by the scoring
logic. -/
structure MethodRecord where
  method : Option String
  weight : Option ℚ
  evidence : List (String × String) := []
  completed_at : String := ""
deriving Repr, DecidableEq

/-- `method.get("weight", 0)` from `calculate_verification_score`. -/
def getWeight (m : MethodRecord) : ℚ := m.weight.getD 0

/-- `method.get("method", "unknown")` from `calculate_verification_score`. -/
def getMethod (m : MethodRecord) : String := m.method.getD "unknown"

/-- Python `round(x, 2)`: round to two decimal places.  (Ties are modelled
with `round`, rounding half upwards; the code never depends on the tie
direction.) -/
def round2 (q : ℚ) : ℚ := ((round (q * 100) : ℤ) : ℚ) / 100

/-- The count of records of method type `t`, as accumulated in the
`method_types` dictionary of `calculate_verification_score`. -/
def methodTypeCount (methods : List MethodRecord) (t : String) : Nat :=
  (methods.filter (fun m => getMethod m = t)).length

/-- `calculate_verification_score` (app/activities/verification.py, lines
86–103): sum the weights, cap at 100, apply the diminishing-returns penalty
for more than two `"community"` records, floor at 0, round to 2 decimals. -/
def calculate_verification_score (methods : List MethodRecord) : ℚ :=
  let total_score : ℚ := (methods.map getWeight).sum
  let final_score : ℚ := min total_score 100
  let communityCount : Nat := methodTypeCount methods "community"
  let final_score : ℚ :=
    if 2 < communityCount then
      max (final_score - ((communityCount - 2 : ℕ) : ℚ) * 2) 0
    else final_score
  round2 final_score

/-- Modelled from the spec's words (§4.2 Score Aggregation Engine), for
comparison with `calculate_verification_score`: sum the weights; cap at
100; if more than two records share method_type "community", subtract
`2 × (count − 2)` floored at 0; round to 2 decimal places. -/
def spec_aggregate (methods : List MethodRecord) : ℚ :=
  let capped : ℚ := min ((methods.map getWeight).sum) 100
  let c : Nat := methodTypeCount methods "community"
  round2 (if 2 < c then max (capped - 2 * ((c : ℚ) - 2)) 0 else capped)

/-- Monotonicity of `round`, via `round_eq` and floor monotonicity. -/
theorem round_mono {x y : ℚ} (h : x ≤ y) : round x ≤ round y := by
  rw [round_eq, round_eq]
  exact Int.floor_le_floor (by linarith)

/-- Monotonicity of `round2`. -/
theorem round2_mono {x y : ℚ} (h : x ≤ y) : round2 x ≤ round2 y := by
  unfold round2
  have : round (x * 100) ≤ round (y * 100) := round_mono (by linarith)
  have hq : ((round (x * 100) : ℤ) : ℚ) ≤ ((round (y * 100) : ℤ) : ℚ) := by
    exact_mod_cast this
  linarith

theorem round2_zero : round2 0 = 0 := by
  unfold round2; norm_num

theorem round2_hundred : round2 100 = 100 := by
  unfold round2
  have : ((100 : ℚ) * 100) = ((10000 : ℤ) : ℚ) := by norm_num
  rw [this, round_intCast]
  norm_num

/-- `round2 q ≤ c` whenever `q ≤ c` for an integer bound `c`. -/
theorem round2_le_of_le {q : ℚ} {c : ℤ} (h : q ≤ (c : ℚ)) : round2 q ≤ (c : ℚ) := by
  unfold round2
  have : round (q * 100) ≤ round ((c : ℚ) * 100) := round_mono (by linarith)
  have hc : round ((c : ℚ) * 100) = c * 100 := by
    have : ((c : ℚ) * 100) = ((c * 100 : ℤ) : ℚ) := by push_cast; ring
    rw [this, round_intCast]
  rw [hc] at this
  rw [div_le_iff₀ (by norm_num : (0:ℚ) < 100)]
  exact_mod_cast this

/-- `0 ≤ round2 q` whenever `0 ≤ q`. -/
theorem round2_nonneg {q : ℚ} (h : 0 ≤ q) : 0 ≤ round2 q := by
  have := round2_mono h
  rwa [round2_zero] at this

/-- C1: For every list of method records, the score aggregation function
returns exactly: the sum of the records' weights (a missing `weight` field
counting as 0), capped at 100; then, if more than two records have method
type "community", reduced by `2 × (community count − 2)` and floored at 0;
then rounded to 2 decimal places — i.e. the code agrees with the spec's
formula, and a record with no weight field contributes 0 to the sum. -/
theorem C1_aggregate_matches_spec :
    (∀ methods : List MethodRecord,
      calculate_verification_score methods = spec_aggregate methods) ∧
    (∀ mo : Option String, getWeight { method := mo, weight := none } = 0) := by
  constructor
  · intro methods
    unfold calculate_verification_score spec_aggregate
    by_cases h : 2 < methodTypeCount methods "community"
    · simp only [h, if_true]
      have hcast : ((methodTypeCount methods "community" - 2 : ℕ) : ℚ) * 2
          = 2 * ((methodTypeCount methods "community" : ℚ) - 2) := by
        have h2 : (2 : ℕ) ≤ methodTypeCount methods "community" := Nat.le_of_lt h
        push_cast [Nat.cast_sub h2]
        ring
      rw [hcast]
    · simp only [h, if_false]
  · intro mo
    rfl

/-! ## C7: range and monotonicity of the aggregation -/

theorem methodTypeCount_cons (m : MethodRecord) (ms : List MethodRecord) (t : String) :
    methodTypeCount (m :: ms) t
      = (if getMethod m = t then 1 else 0) + methodTypeCount ms t := by
  by_cases h : getMethod m = t <;>
    simp [methodTypeCount, List.filter_cons, h, Nat.add_comm]

theorem methodTypeCount_set (t : String) (r : MethodRecord) :
    ∀ (l : List MethodRecord) (i : Nat) (hi : i < l.length),
      getMethod r = getMethod l[i] →
      methodTypeCount (l.set i r) t = methodTypeCount l t := by
  intro l
  induction l with
  | nil => intro i hi; simp at hi
  | cons x xs ih =>
    intro i hi h
    cases i with
    | zero =>
      simp only [List.set, List.getElem_cons_zero] at h ⊢
      rw [methodTypeCount_cons, methodTypeCount_cons, h]
    | succ n =>
      simp only [List.set, List.getElem_cons_succ] at h ⊢
      rw [methodTypeCount_cons, methodTypeCount_cons,
        ih n (by simpa using Nat.lt_of_succ_lt_succ hi) h]

theorem sum_set_ge (l : List ℚ) :
    ∀ (i : Nat) (a : ℚ) (hi : i < l.length),
      l[i] ≤ a → l.sum ≤ (l.set i a).sum := by
  induction l with
  | nil => intro i a hi; simp at hi
  | cons x xs ih =>
    intro i a hi h
    cases i with
    | zero =>
      simp only [List.set, List.sum_cons, List.getElem_cons_zero] at h ⊢
      linarith
    | succ n =>
      simp only [List.set, List.sum_cons, List.getElem_cons_succ] at h ⊢
      have := ih n a (by simpa using Nat.lt_of_succ_lt_succ hi) h
      linarith

/-- When at most two records are of type "community", the penalty branch is
not taken and the score is the rounded, capped weight sum. -/
theorem calc_score_no_penalty (methods : List MethodRecord)
    (hc : methodTypeCount methods "community" ≤ 2) :
    calculate_verification_score methods
      = round2 (min ((methods.map getWeight).sum) 100) := by
  unfold calculate_verification_score
  have h : ¬ 2 < methodTypeCount methods "community" := not_lt.mpr hc
  simp [h]

/-- The aggregation lands in [0,100] whenever every weight is nonnegative,
penalty branch included. -/
theorem calc_score_range (methods : List MethodRecord)
    (hw0 : ∀ m ∈ methods, 0 ≤ getWeight m) :
    0 ≤ calculate_verification_score methods ∧
      calculate_verification_score methods ≤ 100 := by
  have hsum0 : 0 ≤ (methods.map getWeight).sum := by
    apply List.sum_nonneg
    intro x hx
    obtain ⟨m, hm, rfl⟩ := List.mem_map.mp hx
    exact hw0 m hm
  have h100 : ((100 : ℤ) : ℚ) = (100 : ℚ) := by norm_num
  unfold calculate_verification_score
  by_cases h : 2 < methodTypeCount methods "community"
  · simp only [h, if_true]
    constructor
    · exact round2_nonneg (le_max_right _ 0)
    · rw [← h100]
      apply round2_le_of_le
      apply max_le _ (by norm_num)
      have hx : (0 : ℚ) ≤ ((methodTypeCount methods "community" - 2 : ℕ) : ℚ) * 2 := by
        positivity
      have := min_le_right ((methods.map getWeight).sum) (100 : ℚ)
      rw [h100]
      linarith
  · simp only [h, if_false]
    constructor
    · exact round2_nonneg (le_min hsum0 (by norm_num))
    · rw [← h100]
      exact round2_le_of_le (by rw [h100]; exact min_le_right _ _)

/-- C7: for weights in [0,100] the aggregation lands in [0,100]; and with
at most two "community" records it is monotone under increasing any single
record's weight (keeping that record's method type). -/
theorem C7_aggregate_range_and_monotone :
    (∀ methods : List MethodRecord,
        (∀ m ∈ methods, 0 ≤ getWeight m ∧ getWeight m ≤ 100) →
        0 ≤ calculate_verification_score methods ∧
          calculate_verification_score methods ≤ 100)
      ∧ ∀ (methods : List MethodRecord),
          (∀ m ∈ methods, 0 ≤ getWeight m ∧ getWeight m ≤ 100) →
          methodTypeCount methods "community" ≤ 2 →
          ∀ (i : Nat) (hi : i < methods.length) (r' : MethodRecord),
            r'.method = methods[i].method →
            getWeight methods[i] ≤ getWeight r' →
            calculate_verification_score methods ≤
              calculate_verification_score (methods.set i r') := by
  constructor
  · intro methods hw
    exact calc_score_range methods (fun m hm => (hw m hm).1)
  · intro methods hw hc i hi r' hmeth hup
    have hgm : getMethod r' = getMethod methods[i] := by
      unfold getMethod; rw [hmeth]
    have hc' : methodTypeCount (methods.set i r') "community" ≤ 2 := by
      rw [methodTypeCount_set "community" r' methods i hi hgm]; exact hc
    rw [calc_score_no_penalty methods hc, calc_score_no_penalty _ hc']
    apply round2_mono
    apply min_le_min _ (le_refl (100 : ℚ))
    rw [List.map_set]
    exact sum_set_ge (methods.map getWeight) i (getWeight r')
      (by simpa using hi) (by simpa using hup)

/-- A sample one-record method list, used by concrete witnesses. -/
def sampleMethods : List MethodRecord :=
  [{ method := some "activity", weight := some 10 }]

/-- The same record with its weight raised, used by concrete witnesses. -/
def sampleUpgraded : MethodRecord :=
  { method := some "activity", weight := some 20 }

/-- Witness for C7 at a concrete input. -/
theorem C7_witness :
    methodTypeCount sampleMethods "community" ≤ 2 ∧
      (0 ≤ calculate_verification_score sampleMethods ∧
        calculate_verification_score sampleMethods ≤ 100) ∧
      calculate_verification_score sampleMethods ≤
        calculate_verification_score (sampleMethods.set 0 sampleUpgraded) :=
  ⟨by decide,
    C7_aggregate_range_and_monotone.1 sampleMethods (by decide),
    C7_aggregate_range_and_monotone.2 sampleMethods (by decide) (by decide)
      0 (by decide) sampleUpgraded (by decide) (by decide)⟩

/-! ## C3: idempotent method recording -/

/-- The `VerificationMethod` dataclass (method, weight, evidence,
completed_at); all fields are always present. -/
structure VerificationMethod where
  method : String
  weight : ℚ
  evidence : List (String × String) := []
  completed_at : String := ""
deriving Repr, DecidableEq

/-- The `method_dict` built by `record_verification_method` from a
`VerificationMethod`: every key is present. -/
def methodToRecord (vm : VerificationMethod) : MethodRecord :=
  { method := some vm.method, weight := some vm.weight,
    evidence := vm.evidence, completed_at := vm.completed_at }

/-- `record_verification_method` (app/activities/verification.py, lines
148–180), restricted to its list transformation: find the first existing
record whose `method` key equals the new method (`m.get("method") ==
method.method`), replace it in place with the new dict; if none matches,
append the new dict. -/
def record_verification_method
    (existing : List MethodRecord) (vm : VerificationMethod) :
    List MethodRecord :=
  match existing with
  | [] => [methodToRecord vm]
  | m :: rest =>
    if m.method = some vm.method then methodToRecord vm :: rest
    else m :: record_verification_method rest vm

/-- The session's method list after a sequence of `submit_method` signals,
starting from the empty list: each signal runs
`record_verification_method` and the workflow adopts the returned list
(`self._methods_completed = result["methods"]`). -/
def run_submissions (subs : List VerificationMethod) : List MethodRecord :=
  subs.foldl record_verification_method []

/-- The `method` keys of a record list. -/
def methodKeys (l : List MethodRecord) : List (Option String) :=
  l.map MethodRecord.method

/-- Recording either leaves the key list unchanged (replacement) or appends
the single new key (insertion). -/
theorem methodKeys_record (rs : List MethodRecord) (vm : VerificationMethod) :
    methodKeys (record_verification_method rs vm)
      = if some vm.method ∈ methodKeys rs then methodKeys rs
        else methodKeys rs ++ [some vm.method] := by
  induction rs with
  | nil => simp [methodKeys, record_verification_method, methodToRecord]
  | cons m rest ih =>
    by_cases h : m.method = some vm.method
    · simp [methodKeys, record_verification_method, h, methodToRecord]
    · have hne : some vm.method ≠ m.method := fun hh => h hh.symm
      have hrec : record_verification_method (m :: rest) vm
          = m :: record_verification_method rest vm := by
        simp [record_verification_method, h]
      have hkc : methodKeys (m :: rest) = m.method :: methodKeys rest := rfl
      by_cases hmem : some vm.method ∈ methodKeys rest
      · have hmem' : some vm.method ∈ methodKeys (m :: rest) := by
          rw [hkc]; exact List.mem_cons_of_mem _ hmem
        rw [hrec, if_pos hmem']
        show m.method :: methodKeys (record_verification_method rest vm) = _
        rw [ih, if_pos hmem, hkc]
      · have hmem' : some vm.method ∉ methodKeys (m :: rest) := by
          rw [hkc]
          intro hx
          rcases List.mem_cons.mp hx with h1 | h2
          · exact hne h1
          · exact hmem h2
        rw [hrec, if_neg hmem']
        show m.method :: methodKeys (record_verification_method rest vm) = _
        rw [ih, if_neg hmem, hkc]
        rfl

/-- Key-list upsert: the effect of one recording on the key list. -/
def upsertKey (ks : List (Option String)) (k : Option String) :
    List (Option String) :=
  if k ∈ ks then ks else ks ++ [k]

theorem methodKeys_foldl (subs : List VerificationMethod) :
    ∀ acc : List MethodRecord,
      methodKeys (subs.foldl record_verification_method acc)
        = (subs.map (fun vm => some vm.method)).foldl upsertKey
            (methodKeys acc) := by
  induction subs with
  | nil => intro acc; simp
  | cons vm rest ih =>
    intro acc
    simp only [List.foldl_cons, List.map_cons]
    rw [ih, methodKeys_record]
    rfl

theorem upsertKey_nodup (ks : List (Option String)) (k : Option String)
    (h : ks.Nodup) : (upsertKey ks k).Nodup := by
  unfold upsertKey
  by_cases hk : k ∈ ks
  · simpa [hk]
  · simp [hk, List.nodup_append, h]

theorem upsertKey_toFinset (ks : List (Option String)) (k : Option String) :
    (upsertKey ks k).toFinset = insert k ks.toFinset := by
  unfold upsertKey
  by_cases hk : k ∈ ks
  · simp only [hk, if_true]
    exact (Finset.insert_eq_self.mpr (List.mem_toFinset.mpr hk)).symm
  · simp only [hk, if_false, List.toFinset_append]
    ext x
    simp [or_comm]

theorem foldl_upsert_nodup (ks : List (Option String)) :
    ∀ init : List (Option String), init.Nodup →
      (ks.foldl upsertKey init).Nodup := by
  induction ks with
  | nil => intro init h; simpa
  | cons k rest ih =>
    intro init h
    exact ih (upsertKey init k) (upsertKey_nodup init k h)

theorem foldl_upsert_toFinset (ks : List (Option String)) :
    ∀ init : List (Option String),
      (ks.foldl upsertKey init).toFinset = init.toFinset ∪ ks.toFinset := by
  induction ks with
  | nil => intro init; simp
  | cons k rest ih =>
    intro init
    simp only [List.foldl_cons, List.toFinset_cons]
    rw [ih, upsertKey_toFinset]
    ext x
    simp [or_comm, or_assoc, or_left_comm]

/-- C3: starting from an empty session, any sequence of `submit_method`
signals yields a method list with pairwise-distinct method keys, whose
length is the number of distinct submitted method types (hence independent
of how often each type was re-submitted); moreover re-recording an already
present method type never changes the list length. -/
theorem C3_method_list_unique (subs : List VerificationMethod) :
    (methodKeys (run_submissions subs)).Nodup ∧
      (run_submissions subs).length
        = ((subs.map (fun vm => some vm.method)).toFinset).card ∧
      ∀ (rs : List MethodRecord) (vm : VerificationMethod),
        some vm.method ∈ methodKeys rs →
        (record_verification_method rs vm).length = rs.length := by
  have hkeys :
      methodKeys (run_submissions subs)
        = (subs.map (fun vm => some vm.method)).foldl upsertKey [] := by
    rw [run_submissions, methodKeys_foldl]
    rfl
  have hnodup : (methodKeys (run_submissions subs)).Nodup := by
    rw [hkeys]
    exact foldl_upsert_nodup _ [] List.nodup_nil
  refine ⟨hnodup, ?_, ?_⟩
  · have hlen : (run_submissions subs).length
        = (methodKeys (run_submissions subs)).length := by
      simp [methodKeys]
    rw [hlen, ← List.toFinset_card_of_nodup hnodup, hkeys,
      foldl_upsert_toFinset]
    simp
  · intro rs vm hmem
    have h := methodKeys_record rs vm
    rw [if_pos hmem] at h
    have : (methodKeys (record_verification_method rs vm)).length
        = (methodKeys rs).length := by rw [h]
    simpa [methodKeys] using this

/-- A sample submission sequence with a repeated method type, used by the
concrete witness: "community" is submitted twice with different weights. -/
def sampleSubs : List VerificationMethod :=
  [{ method := "community", weight := 20 },
   { method := "activity", weight := 15 },
   { method := "community", weight := 25 }]

/-- Witness for C3 at a concrete input: three submissions over two distinct
method types leave a list of length two with distinct keys, and
re-recording "community" into that list keeps its length at two. -/
theorem C3_witness :
    (methodKeys (run_submissions sampleSubs)).Nodup ∧
      (run_submissions sampleSubs).length = 2 ∧
      (record_verification_method (run_submissions sampleSubs)
        { method := "community", weight := 30 }).length = 2 := by
  obtain ⟨h1, h2, h3⟩ := C3_method_list_unique sampleSubs
  refine ⟨h1, ?_, ?_⟩
  · rw [h2]; decide
  · rw [h3 (run_submissions sampleSubs)
      { method := "community", weight := 30 } (by decide)]
    rw [h2]; decide

/-! ## C4: trust network strength -/

/-- A trust connection dict from the user's `trust_network` JSON list:
`user_id` is read with `connection.get("user_id")` (may be absent) and
`strength` with `connection.get("strength", 0.5)`. -/
structure TrustConnection where
  user_id : Option Nat
  strength : Option ℚ
deriving Repr, DecidableEq

/-- `connection.get("strength", 0.5)`. -/
def getStrength (c : TrustConnection) : ℚ := c.strength.getD (1/2)

/-- The contribution of one connection to `total_trust` in
`check_trust_network_strength`: look up the trusted user's
`verification_score` (the database read, modelled as a partial map
`scores`); the guard `if trusted_score and trusted_score > 50` admits
exactly the present scores strictly above 50 (Python truthiness excludes
only a zero score, which `> 50` already excludes). -/
def connectionTrust (scores : Nat → Option ℚ) (c : TrustConnection) : ℚ :=
  match c.user_id.bind scores with
  | some s => if 50 < s then getStrength c * (s / 100) * 15 else 0
  | none => 0

/-- `check_trust_network_strength` (app/activities/verification.py, lines
266–300), given the trusted users' scores: accumulate the per-connection
trust, cap at 15, round to 2 decimals. -/
def check_trust_network_strength (scores : Nat → Option ℚ)
    (trust_network : List TrustConnection) : ℚ :=
  round2 (min ((trust_network.map (connectionTrust scores)).sum) 15)

/-- Modelled from the spec's words (§4.3 Trust Network Evaluator), for
comparison: sum `strength × (trusted_score/100) × 15` over exactly the
connections whose trusted party's score is strictly greater than 50, cap
at 15, round to 2 decimals. -/
def spec_trust_strength (scores : Nat → Option ℚ)
    (connections : List TrustConnection) : ℚ :=
  round2 (min (((connections.filter (fun c =>
    match c.user_id.bind scores with
    | some s => decide (50 < s)
    | none => false)).map (fun c =>
      getStrength c * (((c.user_id.bind scores).getD 0) / 100) * 15)).sum) 15)

theorem trust_sum_filter (scores : Nat → Option ℚ) :
    ∀ l : List TrustConnection,
      ((l.filter (fun c =>
          match c.user_id.bind scores with
          | some s => decide (50 < s)
          | none => false)).map (fun c =>
        getStrength c * (((c.user_id.bind scores).getD 0) / 100) * 15)).sum
      = (l.map (connectionTrust scores)).sum := by
  intro l
  induction l with
  | nil => simp
  | cons c rest ih =>
    rcases hb : c.user_id.bind scores with _ | s
    · have hp : (match c.user_id.bind scores with
          | some s => decide (50 < s)
          | none => false) = false := by rw [hb]
      have hct : connectionTrust scores c = 0 := by
        unfold connectionTrust; rw [hb]
      simp [List.filter_cons, hp, hct, ih]
    · by_cases hs : 50 < s
      · have hp : (match c.user_id.bind scores with
            | some x => decide (50 < x)
            | none => false) = true := by rw [hb]; simp [hs]
        have hct : connectionTrust scores c
            = getStrength c * (s / 100) * 15 := by
          unfold connectionTrust; rw [hb]; simp [hs]
        simp [List.filter_cons, hp, hct, ih, hb, hs]
      · have hp : (match c.user_id.bind scores with
            | some x => decide (50 < x)
            | none => false) = false := by rw [hb]; simp [hs]
        have hct : connectionTrust scores c = 0 := by
          unfold connectionTrust; rw [hb]; simp [hs]
        simp [List.filter_cons, hp, hct, ih]

/-- C4: `check_trust_network_strength` equals the spec's filtered sum
(capped at 15, rounded); it returns 0 when every trusted party's score is
at most 50; and it never exceeds 15. -/
theorem C4_trust_strength (scores : Nat → Option ℚ)
    (network : List TrustConnection) :
    check_trust_network_strength scores network
        = spec_trust_strength scores network
      ∧ ((∀ c ∈ network, ∀ s : ℚ, c.user_id.bind scores = some s → s ≤ 50) →
          check_trust_network_strength scores network = 0)
      ∧ check_trust_network_strength scores network ≤ 15 := by
  refine ⟨?_, ?_, ?_⟩
  · unfold check_trust_network_strength spec_trust_strength
    rw [trust_sum_filter]
  · intro hlow
    unfold check_trust_network_strength
    have hz : (network.map (connectionTrust scores)).sum = 0 := by
      apply List.sum_eq_zero
      intro x hx
      obtain ⟨c, hc, rfl⟩ := List.mem_map.mp hx
      unfold connectionTrust
      rcases hb : c.user_id.bind scores with _ | s
      · rfl
      · have : ¬ 50 < s := not_lt.mpr (hlow c hc s hb)
        simp [this]
    rw [hz]
    have : min (0 : ℚ) 15 = 0 := by norm_num
    rw [this, round2_zero]
  · unfold check_trust_network_strength
    have h15 : min ((network.map (connectionTrust scores)).sum) 15
        ≤ ((15 : ℤ) : ℚ) := by
      exact_mod_cast min_le_right _ (15 : ℚ)
    have := round2_le_of_le h15
    exact_mod_cast this

/-- Sample trusted-score table for the concrete witness: every trusted
party has score 40. -/
def sampleScores : Nat → Option ℚ := fun _ => some 40

/-- Sample trust network for the concrete witness: one half-strength
connection to user 1. -/
def sampleNetwork : List TrustConnection :=
  [{ user_id := some 1, strength := some (1/2) }]

/-- Witness for C4 at a concrete input: with every trusted score at 40 the
strength is 0, and it is at most 15. -/
theorem C4_witness :
    check_trust_network_strength sampleScores sampleNetwork = 0 ∧
      check_trust_network_strength sampleScores sampleNetwork ≤ 15 :=
  ⟨(C4_trust_strength sampleScores sampleNetwork).2.1 (by
      intro c hc s hs
      rw [sampleNetwork, List.mem_singleton] at hc
      subst hc
      simp [sampleScores] at hs
      rw [← hs]
      norm_num),
    (C4_trust_strength sampleScores sampleNetwork).2.2⟩

/-! ## C5, C6, C10: community validation -/

/-- A validator response dict as built by the `validator_response` signal
handler of `CommunityValidationWorkflow`. -/
structure ValidatorResponse where
  validator_id : Nat
  approved : Bool
  comment : String := ""
  timestamp : String := ""
deriving Repr, DecidableEq

/-- `aggregate_validation_scores` (app/activities/verification.py, lines
590–631): 0 on no responses at all; otherwise the approval percentage
scaled by a confidence multiplier keyed on the total response count. -/
def aggregate_validation_scores
    (approvals rejections : List ValidatorResponse) : ℚ :=
  if approvals = [] ∧ rejections = [] then 0
  else
    ((approvals.length : ℚ) / ((approvals.length + rejections.length : ℕ) : ℚ))
        * 100
      * (if approvals.length + rejections.length < 3 then 7/10
         else if approvals.length + rejections.length < 5 then 85/100
         else 1)

/-- Modelled from the spec's words (§4.4 Community coordinator): the
multiplier is 0.70 for fewer than 3 total responses, 0.85 for 3 or 4, and
1.0 for 5 or more. -/
def spec_confidence_multiplier (total : Nat) : ℚ :=
  if total < 3 then 7/10
  else if total = 3 ∨ total = 4 then 85/100
  else 1

/-- C6: with at least one response, the confidence score is the approval
percentage times the multiplier of the spec's three-band table. -/
theorem C6_confidence_multiplier (a r : List ValidatorResponse)
    (h : a ≠ [] ∨ r ≠ []) :
    aggregate_validation_scores a r
      = ((a.length : ℚ) / ((a.length + r.length : ℕ) : ℚ)) * 100
          * spec_confidence_multiplier (a.length + r.length) := by
  have hne : ¬(a = [] ∧ r = []) := by
    rcases h with h | h <;> intro hc <;> [exact h hc.1; exact h hc.2]
  unfold aggregate_validation_scores spec_confidence_multiplier
  rw [if_neg hne]
  congr 1
  by_cases h3 : a.length + r.length < 3
  · rw [if_pos h3, if_pos h3]
  · rw [if_neg h3, if_neg h3]
    by_cases h5 : a.length + r.length < 5
    · rw [if_pos h5, if_pos (by omega)]
    · rw [if_neg h5, if_neg (by omega)]

/-- A sample approval response, used by concrete witnesses. -/
def sampleApproval : ValidatorResponse := { validator_id := 1, approved := true }

/-- A sample rejection response, used by concrete witnesses. -/
def sampleRejection : ValidatorResponse := { validator_id := 2, approved := false }

/-- Witness for C6 at a concrete input: one approval and no rejections. -/
theorem C6_witness :
    ([sampleApproval] : List ValidatorResponse) ≠ [] ∧
      aggregate_validation_scores [sampleApproval] []
        = ((([sampleApproval] : List ValidatorResponse).length : ℚ)
              / ((([sampleApproval] : List ValidatorResponse).length
                  + ([] : List ValidatorResponse).length : ℕ) : ℚ)) * 100
            * spec_confidence_multiplier
                (([sampleApproval] : List ValidatorResponse).length
                  + ([] : List ValidatorResponse).length) :=
  ⟨by simp,
    C6_confidence_multiplier [sampleApproval] [] (Or.inl (by simp))⟩

/-- C10: the empty input yields exactly 0, and whenever the non-empty
branch (the one that divides by the total response count) is reached, that
divisor is strictly positive — the function is total. -/
theorem C10_empty_aggregation_safe :
    aggregate_validation_scores [] [] = 0 ∧
      ∀ a r : List ValidatorResponse, ¬(a = [] ∧ r = []) →
        0 < a.length + r.length := by
  refine ⟨by simp [aggregate_validation_scores], ?_⟩
  intro a r h
  cases a with
  | cons x xs => simp
  | nil =>
    cases r with
    | nil => exact absurd ⟨rfl, rfl⟩ h
    | cons y ys => simp

/-- Witness for C10 at a concrete input. -/
theorem C10_witness :
    aggregate_validation_scores [] [] = 0 ∧
      0 < ([sampleApproval] : List ValidatorResponse).length
            + ([] : List ValidatorResponse).length :=
  ⟨C10_empty_aggregation_safe.1,
    C10_empty_aggregation_safe.2 [sampleApproval] [] (by simp)⟩

/-- The wake-up predicate of the `wait_condition` in
`CommunityValidationWorkflow.run` (verification_subworkflows.py, lines
300–306): the workflow stops waiting when the TOTAL response count
(approvals plus rejections) reaches `required_validators`, or when the
`_validation_complete` flag (never set anywhere) is true; the surrounding
wait also carries a timeout. -/
def community_wait_condition (approvals rejections : List ValidatorResponse)
    (required_validators : Nat) (validation_complete : Bool) : Bool :=
  decide (required_validators ≤ approvals.length + rejections.length)
    || validation_complete

/-- The success flag computed at line 315:
`success = len(self._approvals) >= input.required_validators`. -/
def community_success (approvals : List ValidatorResponse)
    (required_validators : Nat) : Bool :=
  decide (required_validators ≤ approvals.length)

/-- C5, counterexample to the claim as stated: with `required_count = 2`,
one approval and one rejection, the coordinator stops waiting (the wake
predicate holds) although the required approval count has not been reached
and no timeout occurred. -/
theorem C5_counterexample :
    community_wait_condition [sampleApproval] [sampleRejection] 2 false = true
      ∧ ¬(2 ≤ ([sampleApproval] : List ValidatorResponse).length) := by
  constructor <;> decide

/-- C5, amended: the coordinator waits until the required count of TOTAL
responses (approvals + rejections) is reached or the timeout elapses (the
only other disjunct, `_validation_complete`, is never set), and its result
is successful if and only if the approval count is at least
`required_count`. -/
theorem C5_waits_on_total_responses (a r : List ValidatorResponse)
    (req : Nat) :
    (community_wait_condition a r req false = true
        ↔ req ≤ a.length + r.length)
      ∧ (community_success a req = true ↔ req ≤ a.length) := by
  constructor <;> simp [community_wait_condition, community_success]

/-! ## C2: terminal phase of the verification workflow -/

/-- The externally observable final steps of `VerificationWorkflow.run`
after its main wait (app/workflows/verification.py, lines 194–256). -/
inductive FinalStep
  | trust_network_check
  | score_aggregation
  | persist_final_score
  | completion_notification
deriving Repr, DecidableEq

/-- The sequence of final steps the workflow performs on a terminal
transition, as a function of the cancelled flag, on the nominal
(exception-free) path: the trust-network check block is guarded by
`if not self._cancelled`, the final `calculate_verification_score` call is
unconditional, and the persist-plus-notification block is again guarded by
`if not self._cancelled`. -/
def final_phase_steps (cancelled : Bool) : List FinalStep :=
  (if cancelled then [] else [FinalStep.trust_network_check])
    ++ [FinalStep.score_aggregation]
    ++ (if cancelled then []
        else [FinalStep.persist_final_score, FinalStep.completion_notification])

/-- C2, counterexample to the claim as stated: on a cancelled terminal
transition the final score is NOT persisted and the final trust-network
check is NOT performed (the claim asserted that only the notification is
skipped when cancelled). -/
theorem C2_counterexample :
    FinalStep.persist_final_score ∉ final_phase_steps true
      ∧ FinalStep.trust_network_check ∉ final_phase_steps true := by
  decide

/-- C2, amended: on a completed or timed-out terminal transition the engine
performs the final trust-network check, the final aggregation, persists the
final score, and fires the completion notification, in that order; on a
cancelled terminal transition only the final aggregation runs — the
trust-network check, the score persist and the notification are all
skipped. -/
theorem C2_final_phase :
    final_phase_steps false
        = [FinalStep.trust_network_check, FinalStep.score_aggregation,
           FinalStep.persist_final_score, FinalStep.completion_notification]
      ∧ final_phase_steps true = [FinalStep.score_aggregation] := by
  decide

/-! ## C8: reputation decay cycle -/

inductive DecayStopReason
  | cancelled
  | max_iterations
  | continue_as_new
deriving Repr, DecidableEq

/-- The outcome of one execution of `ReputationDecayWorkflow.run`
(app/workflows/reputation.py, lines 86–178): how the cycle ended, the
iteration count it reports or carries forward, and whether the decay
activity was invoked this cycle. -/
structure DecayCycleOutcome where
  user_id : Nat
  iterations_completed : Nat
  stopped_reason : DecayStopReason
  decay_invoked : Bool
deriving Repr, DecidableEq

/-- One cycle of `ReputationDecayWorkflow.run`: the sleep wakes either on
timeout or on the cancel signal (`cancelled`); if cancelled, return
immediately with reason `cancelled` and the input iteration; otherwise run
the decay activity, increment the iteration, and either stop at
`max_iterations` or continue as new. -/
def reputation_decay_cycle (user_id current_iteration max_iterations : Nat)
    (cancelled : Bool) : DecayCycleOutcome :=
  if cancelled then
    { user_id := user_id, iterations_completed := current_iteration,
      stopped_reason := DecayStopReason.cancelled, decay_invoked := false }
  else if max_iterations ≤ current_iteration + 1 then
    { user_id := user_id, iterations_completed := current_iteration + 1,
      stopped_reason := DecayStopReason.max_iterations, decay_invoked := true }
  else
    { user_id := user_id, iterations_completed := current_iteration + 1,
      stopped_reason := DecayStopReason.continue_as_new, decay_invoked := true }

/-- C8: when the cancel signal is observed before the sleep interval
elapses, the cycle stops with reason `cancelled`, reports the input
iteration count unchanged, and never invokes the decay activity. -/
theorem C8_cancel_preserves_iteration
    (user_id current_iteration max_iterations : Nat) :
    reputation_decay_cycle user_id current_iteration max_iterations true
      = { user_id := user_id, iterations_completed := current_iteration,
          stopped_reason := DecayStopReason.cancelled,
          decay_invoked := false } := by
  rfl

/-! ## C9: session start -/

inductive SessionStatus
  | running
  | completed
  | timed_out
  | cancelled
deriving Repr, DecidableEq

/-- The observable session state owned by `VerificationWorkflow`. -/
structure SessionState where
  user_id : Nat
  target_score : ℚ
  current_score : ℚ
  status : SessionStatus
deriving Repr, DecidableEq

/-- The state set up by `VerificationWorkflow.__init__` together with the
opening of `run` (app/workflows/verification.py, lines 118–155): score
starts at 0, the status marker is in-progress (the spec's `running`),
and the target is `min(input.target_score, 100.0)`.  No range check of the
input target is performed anywhere in the workflow. -/
def verification_start (user_id : Nat) (target_score : ℚ) : SessionState :=
  { user_id := user_id, target_score := min target_score 100,
    current_score := 0, status := SessionStatus.running }

/-- C9, counterexample to the claim as stated: the start operation accepts
a negative target without any validation — target −5 is stored unchanged,
outside [0,100]. -/
theorem C9_counterexample :
    (verification_start 1 (-5)).target_score = -5
      ∧ ¬(0 ≤ (verification_start 1 (-5)).target_score) := by
  constructor <;> decide

/-- C9, amended: start performs no range validation; it sets status
running, score 0 and target `min(input target, 100)`, so an in-range
target is stored unchanged, a target above 100 is clamped to 100, and a
negative target passes through unchanged. -/
theorem C9_start_state (user_id : Nat) (t : ℚ) :
    (verification_start user_id t).status = SessionStatus.running
      ∧ (verification_start user_id t).current_score = 0
      ∧ (verification_start user_id t).target_score = min t 100
      ∧ (t ≤ 100 → (verification_start user_id t).target_score = t)
      ∧ (100 < t → (verification_start user_id t).target_score = 100) := by
  refine ⟨rfl, rfl, rfl, ?_, ?_⟩
  · intro h
    exact min_eq_left h
  · intro h
    exact min_eq_right (le_of_lt h)

/-- Witness for C9 at a concrete input. -/
theorem C9_witness :
    (60 : ℚ) ≤ 100
      ∧ (verification_start 123 60).status = SessionStatus.running
      ∧ (verification_start 123 60).current_score = 0
      ∧ (verification_start 123 60).target_score = 60 :=
  ⟨by norm_num, (C9_start_state 123 60).1, (C9_start_state 123 60).2.1,
    (C9_start_state 123 60).2.2.2.1 (by norm_num)⟩

end Voluntier
